import Mathlib

/-!
# Verification of the nurse-management CRUD application

Shallow embedding of the Devasenapathi/nursemanagement repository:
* `src/server.js` and `src/backend/server.js` — Express + SQLite REST API
  (five endpoints over a `nurses` table with a UNIQUE license_number column),
* `src/frontend/src/App.jsx` — React client (search filter, column sort),
* the vanilla client script (`sortNurses`, dob→age auto-calculation).

Strings are modelled by Lean `String` (a `List Char` wrapper in this
toolchain); JavaScript string comparison and `toLowerCase` are modelled on
the underlying character-code lists.  Timestamps (`created_at`/`updated_at`)
are omitted: no claim under verification mentions them.
-/

namespace NurseMgmt

/-! ## JavaScript string / number primitives -/

/-- `s.toLowerCase()`: lower-case every character (basic latin). -/
def lowerStr (s : String) : String := ⟨s.data.map Char.toLower⟩

/-- The character-code sequence of a string (JS compares code units). -/
def strCodes (s : String) : List Nat := s.data.map Char.toNat

/-- Decimal digit characters of a natural number, fuel-based so that it
is structurally recursive (the fuel `n + 1` always suffices). -/
def natCharsAux : Nat → Nat → List Char → List Char
  | 0, _, acc => acc
  | fuel + 1, n, acc =>
    if n < 10 then Char.ofNat (48 + n) :: acc
    else natCharsAux fuel (n / 10) (Char.ofNat (48 + n % 10) :: acc)

/-- Decimal digit characters of a natural number (used for JS `toString()`). -/
def natChars (n : Nat) : List Char := natCharsAux (n + 1) n []

/-- JS `Number.prototype.toString()` for integers: decimal representation. -/
def intChars : Int → List Char
  | .ofNat n => natChars n
  | .negSucc n => '-' :: natChars (n + 1)

/-- JS `age.toString()` as a Lean `String`. -/
def intStr (a : Int) : String := ⟨intChars a⟩

/-- Contiguous-sublist test on character lists (JS `String.prototype.includes`). -/
def containsSeq : List Char → List Char → Bool
  | [], needle => needle.isEmpty
  | a :: t, needle => needle.isPrefixOf (a :: t) || containsSeq t needle

/-- JS `hay.includes(needle)`. -/
def jsIncludes (hay needle : String) : Bool := containsSeq hay.data needle.data

/-- A JavaScript value appearing in a JSON request-body field.  The clients
send strings and numbers; a missing JSON key reads as `undefined`.
(Other JS values — `null`, booleans, objects — are not produced by either
client and are not needed by any claim.) -/
inductive JVal where
  | undef
  | str (s : String)
  | num (n : Int)
deriving DecidableEq

/-- JS truthiness of a request-body field: `undefined`, `""` and `0` are
falsy; every other string or integer is truthy. -/
def JVal.truthy : JVal → Bool
  | .undef => false
  | .str s => !(s == "")
  | .num n => !(n == 0)

/-- A field is absent (`undefined`) or the empty string. -/
def JVal.absentOrEmpty : JVal → Bool
  | .undef => true
  | .str s => s == ""
  | .num _ => false

/-- The text SQLite stores for a bound value in a TEXT-affinity column
(numbers are converted to their decimal text). -/
def JVal.asString : JVal → String
  | .undef => ""
  | .str s => s
  | .num n => intStr n

/-- Longest leading digit run, JS `parseInt` style: `none` models `NaN`. -/
def digitsVal : List Char → Nat → Nat
  | [], acc => acc
  | c :: cs, acc => if c.isDigit then digitsVal cs (acc * 10 + (c.toNat - 48)) else acc

/-- Parse an unsigned decimal prefix; `none` when the first char is no digit. -/
def parseUnsigned : List Char → Option Nat
  | [] => none
  | c :: cs => if c.isDigit then some (digitsVal cs (c.toNat - 48)) else none

/-- Parse an optionally signed decimal prefix. -/
def parseSigned : List Char → Option Int
  | '-' :: cs => (parseUnsigned cs).map (fun n => -(n : Int))
  | '+' :: cs => (parseUnsigned cs).map (fun n => (n : Int))
  | cs => (parseUnsigned cs).map (fun n => (n : Int))

/-- JS `parseInt(v)`: integers pass through (number → decimal string → parse
round-trips), strings are parsed after skipping leading spaces, `undefined`
gives `NaN` (modelled as `none`). -/
def jsParseInt : JVal → Option Int
  | .num n => some n
  | .str s => parseSigned (s.data.dropWhile (fun c => c == ' '))
  | .undef => none

/-! ## Calendar dates

`new Date("YYYY-MM-DD")` accepts exactly a 4-2-2 digit dash-separated
string denoting a real calendar day; anything else is an Invalid Date
(`NaN` timestamp).  For valid dates, timestamp order is lexicographic
order on (year, month, day). -/

def isLeapYear (y : Nat) : Bool := y % 4 == 0 && (y % 100 != 0 || y % 400 == 0)

def daysInMonth (y m : Nat) : Nat :=
  if m = 2 then (if isLeapYear y then 29 else 28)
  else if m = 4 ∨ m = 6 ∨ m = 9 ∨ m = 11 then 30
  else 31

/-- Split a character list on the dash separator. -/
def splitDash : List Char → List (List Char)
  | [] => [[]]
  | c :: cs =>
    if c = '-' then [] :: splitDash cs
    else
      match splitDash cs with
      | [] => [[c]]
      | g :: gs => (c :: g) :: gs

/-- Read a non-empty all-digit character list as a natural number. -/
def digitsToNat? (cs : List Char) : Option Nat :=
  if cs ≠ [] ∧ cs.all Char.isDigit then some (digitsVal cs 0) else none

/-- Parse an ISO `YYYY-MM-DD` date string. -/
def parseDate (s : String) : Option (Nat × Nat × Nat) :=
  match splitDash s.data with
  | [ys, ms, ds] =>
    match digitsToNat? ys, digitsToNat? ms, digitsToNat? ds with
    | some y, some m, some d =>
      if ys.length = 4 ∧ ms.length = 2 ∧ ds.length = 2
          ∧ 1 ≤ m ∧ m ≤ 12 ∧ 1 ≤ d ∧ d ≤ daysInMonth y m
      then some (y, m, d) else none
    | _, _, _ => none
  | _ => none

/-! ## Data model and record store -/

/-- A row of the `nurses` table (timestamps omitted; no claim uses them). -/
structure Nurse where
  id : Nat
  name : String
  license_number : String
  dob : String
  age : Int
deriving DecidableEq, Repr

/-- The SQLite table: rows in rowid (insertion) order plus the AUTOINCREMENT
counter. -/
structure Store where
  nextId : Nat
  rows : List Nurse
deriving DecidableEq, Repr

/-- Store invariant guaranteed by `INTEGER PRIMARY KEY AUTOINCREMENT`:
rowids are assigned in strictly increasing order and stay below the
counter. -/
def Store.wf (s : Store) : Prop :=
  s.rows.Pairwise (fun a b => a.id < b.id) ∧ ∀ n ∈ s.rows, n.id < s.nextId

/-- JSON request body of POST/PUT `/api/nurses`. -/
structure ReqBody where
  name : JVal
  license_number : JVal
  dob : JVal
  age : JVal
deriving DecidableEq

/-- Field-presence validation of `src/server.js` (lines 101–109 and
156–162): `if (!name || !license_number || !dob || !age)`. -/
def validBody (b : ReqBody) : Bool :=
  b.name.truthy && b.license_number.truthy && b.dob.truthy && b.age.truthy

/-- Field-presence validation of `src/backend/server.js` (lines 76–80 and
107–110): `if (!name || !license_number || !dob || age === undefined)`. -/
def backendValidBody (b : ReqBody) : Bool :=
  b.name.truthy && b.license_number.truthy && b.dob.truthy && !(b.age == JVal.undef)

/-- Some field of the body is absent or the empty string. -/
def anyAbsentOrEmpty (b : ReqBody) : Bool :=
  b.name.absentOrEmpty || b.license_number.absentOrEmpty
    || b.dob.absentOrEmpty || b.age.absentOrEmpty

/-- Outcome of an API call: HTTP status plus payload or error message. -/
inductive ApiResult where
  | success (status : Nat) (data : Option Nurse)
  | failure (status : Nat) (error : String)
deriving DecidableEq, Repr

def ApiResult.status : ApiResult → Nat
  | .success s _ => s
  | .failure s _ => s

def validationMsg : String := "All fields are required: name, license_number, dob, age"
def backendValidationMsg : String := "All fields are required"
def duplicateMsg : String := "License number already exists"
def notFoundMsg : String := "Nurse not found"
def createFailMsg : String := "Failed to create nurse"
def updateFailMsg : String := "Failed to update nurse"

/-! ## The five API operations (src/server.js) -/

/-- `GET /api/nurses` — `SELECT * FROM nurses ORDER BY id DESC`.
The sort is modelled below by `listNurses` once the comparator sort is
defined; see `listNurses`. -/
def findById (rows : List Nurse) (id : Nat) : Option Nurse :=
  rows.find? (fun r => r.id == id)

/-- `GET /api/nurses/:id` (src/server.js lines 71–96). -/
def getNurse (s : Store) (id : Nat) : ApiResult :=
  match findById s.rows id with
  | some n => .success 200 (some n)
  | none => .failure 404 notFoundMsg

/-- `POST /api/nurses` (src/server.js lines 98–141): presence validation,
then `INSERT`; SQLite checks the NOT NULL constraint on `age` (a `NaN`
bind is stored as NULL) and then the UNIQUE constraint on
`license_number`; the UNIQUE failure is translated to a 400 with
`duplicateMsg`, any other store failure to a 500. -/
def postNurse (s : Store) (b : ReqBody) : Store × ApiResult :=
  if !validBody b then (s, .failure 400 validationMsg)
  else
    match jsParseInt b.age with
    | none => (s, .failure 500 createFailMsg)
    | some a =>
      if s.rows.any (fun r => r.license_number == b.license_number.asString) then
        (s, .failure 400 duplicateMsg)
      else
        let n : Nurse :=
          { id := s.nextId
            name := b.name.asString
            license_number := b.license_number.asString
            dob := b.dob.asString
            age := a }
        ({ nextId := s.nextId + 1, rows := s.rows ++ [n] }, .success 201 (some n))

/-- `PUT /api/nurses/:id` (src/server.js lines 143–198): existence check
FIRST, then presence validation, then `UPDATE` with the same constraint
translation as `postNurse`. -/
def putNurse (s : Store) (id : Nat) (b : ReqBody) : Store × ApiResult :=
  match findById s.rows id with
  | none => (s, .failure 404 notFoundMsg)
  | some _ =>
    if !validBody b then (s, .failure 400 validationMsg)
    else
      match jsParseInt b.age with
      | none => (s, .failure 500 updateFailMsg)
      | some a =>
        if s.rows.any (fun r => !(r.id == id) && r.license_number == b.license_number.asString) then
          (s, .failure 400 duplicateMsg)
        else
          let rows := s.rows.map (fun r =>
            if r.id == id then
              { r with
                  name := b.name.asString
                  license_number := b.license_number.asString
                  dob := b.dob.asString
                  age := a }
            else r)
          ({ s with rows := rows }, .success 200 (findById rows id))

/-- `POST /api/nurses` of `src/backend/server.js` (lines 74–102): its
presence validation (`!name || !license_number || !dob ||
age === undefined`) lets an empty-string age through; `parseInt('')` is
`NaN`, which SQLite binds as NULL, so the NOT NULL constraint on `age`
fails and the catch answers 500 (the error text does not mention the
UNIQUE constraint). -/
def backendPostNurse (s : Store) (b : ReqBody) : Store × ApiResult :=
  if !backendValidBody b then (s, .failure 400 backendValidationMsg)
  else
    match jsParseInt b.age with
    | none => (s, .failure 500 createFailMsg)
    | some a =>
      if s.rows.any (fun r => r.license_number == b.license_number.asString) then
        (s, .failure 400 duplicateMsg)
      else
        let n : Nurse :=
          { id := s.nextId
            name := b.name.asString
            license_number := b.license_number.asString
            dob := b.dob.asString
            age := a }
        ({ nextId := s.nextId + 1, rows := s.rows ++ [n] }, .success 201 (some n))

/-- `PUT /api/nurses/:id` of `src/backend/server.js` (lines 104–147):
there the presence validation runs BEFORE the existence check. -/
def backendPutNurse (s : Store) (id : Nat) (b : ReqBody) : Store × ApiResult :=
  if !backendValidBody b then (s, .failure 400 backendValidationMsg)
  else
    match findById s.rows id with
    | none => (s, .failure 404 notFoundMsg)
    | some _ =>
      match jsParseInt b.age with
      | none => (s, .failure 500 updateFailMsg)
      | some a =>
        if s.rows.any (fun r => !(r.id == id) && r.license_number == b.license_number.asString) then
          (s, .failure 400 duplicateMsg)
        else
          let rows := s.rows.map (fun r =>
            if r.id == id then
              { r with
                  name := b.name.asString
                  license_number := b.license_number.asString
                  dob := b.dob.asString
                  age := a }
            else r)
          ({ s with rows := rows }, .success 200 (findById rows id))

/-- `DELETE /api/nurses/:id` (src/server.js lines 200–233): existence
check, then `DELETE FROM nurses WHERE id = ?`. -/
def deleteNurse (s : Store) (id : Nat) : Store × ApiResult :=
  match findById s.rows id with
  | none => (s, .failure 404 notFoundMsg)
  | some _ =>
    ({ s with rows := s.rows.filter (fun r => !(r.id == id)) }, .success 200 none)

/-! ## The comparator sort engine

`sortNurses` in the vanilla client (and `handleSort` in App.jsx) call
`Array.prototype.sort` with a three-way comparator built from
`if (valueA < valueB) ... if (valueA > valueB) ...`.  ES2019 `sort` is
stable, and for a consistent comparator the stable sorted permutation is
unique, so any stable sorting algorithm models it; we use insertion
sort. -/

/-- Three-way comparison of character-code lists: JS `<`/`>` on strings
(lexicographic by code unit). -/
def cmpCodes : List Nat → List Nat → Ordering
  | [], [] => .eq
  | [], _ :: _ => .lt
  | _ :: _, [] => .gt
  | a :: as, b :: bs => if a < b then .lt else if b < a then .gt else cmpCodes as bs

/-- Three-way comparison of integers, JS comparator pattern. -/
def cmpI (a b : Int) : Ordering :=
  if a < b then .lt else if b < a then .gt else .eq

/-- The four sortable columns of the table. -/
inductive Col where
  | name
  | license_number
  | dob
  | age
deriving DecidableEq

inductive Dir where
  | asc
  | desc
deriving DecidableEq

/-- The comparator body of `sortNurses` (vanilla client lines 126–147):
`age` compares `parseInt` values (ages are integers, so `parseInt` is the
identity), `dob` compares `new Date(...)` timestamps — equal-length
lexicographic comparison of (year, month, day); an Invalid Date is `NaN`
and every comparison with it is `false`, so such pairs compare equal —
and any other column compares `toLowerCase()` strings. -/
def colCmp : Col → Nurse → Nurse → Ordering
  | .age, a, b => cmpI a.age b.age
  | .dob, a, b =>
    match parseDate a.dob, parseDate b.dob with
    | some x, some y => cmpCodes [x.1, x.2.1, x.2.2] [y.1, y.2.1, y.2.2]
    | _, _ => .eq
  | .name, a, b => cmpCodes (strCodes (lowerStr a.name)) (strCodes (lowerStr b.name))
  | .license_number, a, b =>
    cmpCodes (strCodes (lowerStr a.license_number)) (strCodes (lowerStr b.license_number))

/-- "`a` may be placed before `b`": comparator result ≤ 0.  For `asc` the
comparator returns -1/1 on lt/gt; for `desc` the signs flip. -/
def sortLe (c : Col) (d : Dir) (a b : Nurse) : Bool :=
  match d, colCmp c a b with
  | .asc, .gt => false
  | .asc, _ => true
  | .desc, .lt => false
  | .desc, _ => true

/-- Stable insertion into a sorted list (`r a b` = "`a` may precede `b`"). -/
def orderedInsertB (r : α → α → Bool) (a : α) : List α → List α
  | [] => [a]
  | b :: l => if r a b then a :: b :: l else b :: orderedInsertB r a l

/-- Stable insertion sort; models ES2019 `Array.prototype.sort` for a
consistent comparator. -/
def insertionSortB (r : α → α → Bool) : List α → List α
  | [] => []
  | a :: l => orderedInsertB r a (insertionSortB r l)

/-- `sortNurses(column, direction)` of the vanilla client, as a pure
function on the collection. -/
def sortNurses (c : Col) (d : Dir) (l : List Nurse) : List Nurse :=
  insertionSortB (sortLe c d) l

/-- `GET /api/nurses` (src/server.js lines 52–70):
`SELECT * FROM nurses ORDER BY id DESC`. -/
def listNurses (s : Store) : List Nurse :=
  insertionSortB (fun a b => b.id ≤ a.id) s.rows

/-! ## The search filter (App.jsx lines 295–305) -/

/-- The predicate of `filteredNurses`: an empty (falsy) search term passes
every record; otherwise the lower-cased term must occur in the lower-cased
name, the lower-cased license number, the raw dob string, or the decimal
string of the age. -/
def matchesSearch (q : String) (n : Nurse) : Bool :=
  if q == "" then true
  else
    jsIncludes (lowerStr n.name) (lowerStr q)
      || jsIncludes (lowerStr n.license_number) (lowerStr q)
      || jsIncludes n.dob (lowerStr q)
      || jsIncludes (intStr n.age) (lowerStr q)

/-- `filteredNurses = nurses.filter(...)` of App.jsx. -/
def filteredNurses (l : List Nurse) (q : String) : List Nurse :=
  l.filter (matchesSearch q)

/-! ## Spec-side definitions (formalising the spec's words, for
refinement statements) -/

/-- "the query is matched case-insensitively as a substring against" a
field value. -/
def ciSubstr (q field : String) : Bool :=
  jsIncludes (lowerStr field) (lowerStr q)

/-- The claim's filter predicate, from the spec's words: case-insensitive
substring of the name, the license number, the raw dob string, or the
string form of the age; an empty query passes everything. -/
def claimMatch (q : String) (n : Nurse) : Bool :=
  if q == "" then true
  else
    ciSubstr q n.name || ciSubstr q n.license_number
      || ciSubstr q n.dob || ciSubstr q (intStr n.age)

/-- The amended filter predicate: as `claimMatch`, except that the raw dob
string is matched case-sensitively against the lower-cased query (the code
does not lower-case the dob). -/
def amendedMatch (q : String) (n : Nurse) : Bool :=
  if q == "" then true
  else
    ciSubstr q n.name || ciSubstr q n.license_number
      || jsIncludes n.dob (lowerStr q) || ciSubstr q (intStr n.age)

/-- Strict lexicographic order on code lists (spec side). -/
def lexLtP : List Nat → List Nat → Prop
  | [], [] => False
  | [], _ :: _ => True
  | _ :: _, [] => False
  | a :: as, b :: bs => a < b ∨ (a = b ∧ lexLtP as bs)

/-- Non-strict lexicographic order on code lists (spec side). -/
def lexLeP (u v : List Nat) : Prop := u = v ∨ lexLtP u v

/-- The date triple as a code list, year first: lexicographic order on it
is calendar order. -/
def dateList (x : Nat × Nat × Nat) : List Nat := [x.1, x.2.1, x.2.2]

/-- Spec-side ordering for a sorted column: "for the `age` column compares
as integers, for `dob` compares as calendar dates, otherwise compares
case-insensitive string value". -/
def specLe : Col → Nurse → Nurse → Prop
  | .age, a, b => a.age ≤ b.age
  | .dob, a, b => ∀ x y, parseDate a.dob = some x → parseDate b.dob = some y →
      lexLeP (dateList x) (dateList y)
  | .name, a, b => lexLeP (strCodes (lowerStr a.name)) (strCodes (lowerStr b.name))
  | .license_number, a, b =>
      lexLeP (strCodes (lowerStr a.license_number)) (strCodes (lowerStr b.license_number))

/-- Spec-side ordering adjusted for direction. -/
def dirLe (c : Col) (d : Dir) (a b : Nurse) : Prop :=
  match d with
  | .asc => specLe c a b
  | .desc => specLe c b a

/-- The view's dob→age auto-calculation works on the components JS `Date`
exposes (`getFullYear`, `getMonth`, `getDate`); only differences of the
month fields matter, so the 0-based months of JS need no adjustment. -/
structure SimpleDate where
  y : Int
  m : Int
  d : Int

/-- Age auto-calculation on dob change (App.jsx lines 148–159 and the
vanilla client lines 55–65):
`age = today.getFullYear() - dob.getFullYear();`
`monthDiff = today.getMonth() - dob.getMonth();`
decrement when `monthDiff < 0 || (monthDiff === 0 && today.getDate() < dob.getDate())`. -/
def deriveAge (today dob : SimpleDate) : Int :=
  let age := today.y - dob.y
  let monthDiff := today.m - dob.m
  if monthDiff < 0 ∨ (monthDiff = 0 ∧ today.d < dob.d) then age - 1 else age

/-! ## Concrete sample data (used by witnesses and counterexamples) -/

def nurseAnn : Nurse := ⟨1, "Ann", "RN-1", "1990-01-01", 34⟩

def nurseBea : Nurse := ⟨2, "Bea", "RN-2", "1989-03-04", 21⟩

def nurseCal : Nurse := ⟨3, "cal", "RN-3", "1991-07-08", 28⟩

/-- A record whose raw dob string contains upper-case letters. -/
def nurseAda : Nurse := ⟨1, "Ada", "RN-7", "1990-JAN-01", 30⟩

def emptyStore : Store := ⟨1, []⟩

def storeRN1 : Store := ⟨2, [nurseAnn]⟩

def storeTwo : Store := ⟨3, [nurseAnn, nurseBea]⟩

/-! ## Generic lemmas about the stable insertion sort -/

theorem orderedInsertB_perm (r : α → α → Bool) (a : α) (l : List α) :
    (orderedInsertB r a l).Perm (a :: l) := by
  induction l with
  | nil => exact List.Perm.refl _
  | cons b t ih =>
    rw [orderedInsertB]
    cases hab : r a b with
    | true => simp
    | false =>
      simp only [Bool.false_eq_true, if_false]
      exact (ih.cons b).trans (List.Perm.swap a b t)

theorem mem_orderedInsertB {r : α → α → Bool} {a x : α} {l : List α} :
    x ∈ orderedInsertB r a l ↔ x = a ∨ x ∈ l := by
  rw [(orderedInsertB_perm r a l).mem_iff]
  simp

theorem insertionSortB_perm (r : α → α → Bool) (l : List α) :
    (insertionSortB r l).Perm l := by
  induction l with
  | nil => exact List.Perm.refl _
  | cons a t ih => exact (orderedInsertB_perm r a _).trans (ih.cons a)

theorem mem_insertionSortB {r : α → α → Bool} {x : α} {l : List α}
    (h : x ∈ insertionSortB r l) : x ∈ l :=
  (insertionSortB_perm r l).mem_iff.mp h

theorem pairwise_orderedInsertB (r : α → α → Bool) (a : α) (l : List α)
    (hl : l.Pairwise (fun x y => r x y = true))
    (htot : ∀ b ∈ l, r a b = true ∨ r b a = true)
    (htr : ∀ b ∈ l, ∀ c ∈ l, r a b = true → r b c = true → r a c = true) :
    (orderedInsertB r a l).Pairwise (fun x y => r x y = true) := by
  induction l with
  | nil => simp [orderedInsertB]
  | cons b t ih =>
    rcases List.pairwise_cons.mp hl with ⟨hbt, ht⟩
    rw [orderedInsertB]
    cases hab : r a b with
    | true =>
      simp only [if_true]
      refine List.pairwise_cons.mpr ⟨?_, hl⟩
      intro x hx
      rcases List.mem_cons.mp hx with hx | hx
      · subst hx; exact hab
      · exact htr b (List.mem_cons_self _ _) x (List.mem_cons_of_mem _ hx) hab (hbt x hx)
    | false =>
      simp only [Bool.false_eq_true, if_false]
      refine List.pairwise_cons.mpr ⟨?_, ?_⟩
      · intro x hx
        rcases mem_orderedInsertB.mp hx with hx | hx
        · subst hx
          rcases htot b (List.mem_cons_self _ _) with h | h
          · rw [h] at hab; cases hab
          · exact h
        · exact hbt x hx
      · exact ih ht
          (fun x hx => htot x (List.mem_cons_of_mem _ hx))
          (fun x hx y hy => htr x (List.mem_cons_of_mem _ hx) y (List.mem_cons_of_mem _ hy))

theorem pairwise_insertionSortB (r : α → α → Bool) (l : List α)
    (htot : ∀ a ∈ l, ∀ b ∈ l, r a b = true ∨ r b a = true)
    (htr : ∀ a ∈ l, ∀ b ∈ l, ∀ c ∈ l, r a b = true → r b c = true → r a c = true) :
    (insertionSortB r l).Pairwise (fun x y => r x y = true) := by
  induction l with
  | nil => simp [insertionSortB]
  | cons a t ih =>
    rw [insertionSortB]
    apply pairwise_orderedInsertB
    · exact ih
        (fun x hx y hy => htot x (List.mem_cons_of_mem _ hx) y (List.mem_cons_of_mem _ hy))
        (fun x hx y hy z hz => htr x (List.mem_cons_of_mem _ hx) y (List.mem_cons_of_mem _ hy)
          z (List.mem_cons_of_mem _ hz))
    · intro b hb
      exact htot a (List.mem_cons_self _ _) b (List.mem_cons_of_mem _ (mem_insertionSortB hb))
    · intro b hb c hc
      exact htr a (List.mem_cons_self _ _) b (List.mem_cons_of_mem _ (mem_insertionSortB hb))
        c (List.mem_cons_of_mem _ (mem_insertionSortB hc))

theorem filter_orderedInsertB (r : α → α → Bool) (p : α → Bool) (a : α) (l : List α)
    (h : p a = true → ∀ b ∈ l, p b = true → r a b = true) :
    (orderedInsertB r a l).filter p = if p a then a :: l.filter p else l.filter p := by
  induction l with
  | nil =>
    cases hpa : p a <;> simp [orderedInsertB, List.filter, hpa]
  | cons b t ih =>
    rw [orderedInsertB]
    cases hab : r a b with
    | true =>
      cases hpa : p a <;> cases hpb : p b <;>
        simp [List.filter, hpa, hpb]
    | false =>
      simp only [Bool.false_eq_true, if_false]
      cases hpa : p a with
      | true =>
        have hpb : p b = false := by
          cases hpb : p b with
          | true =>
            have := h hpa b (List.mem_cons_self _ _) hpb
            rw [this] at hab; cases hab
          | false => rfl
        rw [List.filter_cons_of_neg (by simp [hpb]), List.filter_cons_of_neg (by simp [hpb])]
        rw [ih (fun hpa' x hx hpx => h hpa' x (List.mem_cons_of_mem _ hx) hpx), if_pos (by simp [hpa])]
        simp [hpa]
      | false =>
        have ih' := ih (fun hpa' x hx hpx => h hpa' x (List.mem_cons_of_mem _ hx) hpx)
        rw [if_neg (by simp [hpa])] at ih'
        cases hpb : p b <;> simp [List.filter, hpb, ih', hpa]

/-! ## Lemmas about the three-way comparisons -/

theorem cmpCodes_self (u : List Nat) : cmpCodes u u = .eq := by
  induction u with
  | nil => rfl
  | cons a t ih => simp [cmpCodes, ih]

theorem cmpCodes_eq_eq {u v : List Nat} : cmpCodes u v = .eq ↔ u = v := by
  induction u generalizing v with
  | nil => cases v <;> simp [cmpCodes]
  | cons a t ih =>
    cases v with
    | nil => simp [cmpCodes]
    | cons b s =>
      simp only [cmpCodes]
      split_ifs with h1 h2
      · simp; omega
      · simp; omega
      · have hab : a = b := by omega
        subst hab
        simp [ih]

theorem cmpCodes_gt_iff {u v : List Nat} : cmpCodes u v = .gt ↔ cmpCodes v u = .lt := by
  induction u generalizing v with
  | nil => cases v <;> simp [cmpCodes]
  | cons a t ih =>
    cases v with
    | nil => simp [cmpCodes]
    | cons b s =>
      simp only [cmpCodes]
      split_ifs with h1 h2 h3 <;> first | omega | simp | (exact ih)

theorem cmpCodes_ngt_iff_lexLeP {u v : List Nat} : cmpCodes u v ≠ .gt ↔ lexLeP u v := by
  induction u generalizing v with
  | nil =>
    cases v <;> simp [cmpCodes, lexLeP, lexLtP]
  | cons a t ih =>
    cases v with
    | nil => simp [cmpCodes, lexLeP, lexLtP]
    | cons b s =>
      simp only [cmpCodes, lexLeP, lexLtP]
      split_ifs with h1 h2
      · simp; omega
      · simp; omega
      · have hab : a = b := by omega
        subst hab
        simp only [lexLeP] at ih
        simp [← ih]

theorem lexLtP_trans {u v w : List Nat} (h1 : lexLtP u v) (h2 : lexLtP v w) : lexLtP u w := by
  induction u generalizing v w with
  | nil =>
    cases v with
    | nil => exact absurd h1 (by simp [lexLtP])
    | cons b s => cases w with
      | nil => exact absurd h2 (by simp [lexLtP])
      | cons c r => simp [lexLtP]
  | cons a t ih =>
    cases v with
    | nil => exact absurd h1 (by simp [lexLtP])
    | cons b s =>
      cases w with
      | nil => exact absurd h2 (by simp [lexLtP])
      | cons c r =>
        rw [lexLtP] at h1 h2 ⊢
        rcases h1 with h1 | ⟨hab, h1⟩
        · rcases h2 with h2 | ⟨hbc, h2⟩
          · exact Or.inl (by omega)
          · exact Or.inl (by omega)
        · rcases h2 with h2 | ⟨hbc, h2⟩
          · exact Or.inl (by omega)
          · exact Or.inr ⟨by omega, ih h1 h2⟩

theorem lexLeP_trans {u v w : List Nat} (h1 : lexLeP u v) (h2 : lexLeP v w) : lexLeP u w := by
  rcases h1 with rfl | h1
  · exact h2
  · rcases h2 with rfl | h2
    · exact Or.inr h1
    · exact Or.inr (lexLtP_trans h1 h2)

theorem cmpCodes_ngt_trans {u v w : List Nat}
    (h1 : cmpCodes u v ≠ .gt) (h2 : cmpCodes v w ≠ .gt) : cmpCodes u w ≠ .gt :=
  cmpCodes_ngt_iff_lexLeP.mpr
    (lexLeP_trans (cmpCodes_ngt_iff_lexLeP.mp h1) (cmpCodes_ngt_iff_lexLeP.mp h2))

theorem cmpI_ngt_iff {a b : Int} : cmpI a b ≠ .gt ↔ a ≤ b := by
  unfold cmpI; split_ifs <;> simp <;> omega

theorem cmpI_nlt_iff {a b : Int} : cmpI a b ≠ .lt ↔ b ≤ a := by
  unfold cmpI; split_ifs <;> simp <;> omega

theorem cmpI_eq_iff {a b : Int} : cmpI a b = .eq ↔ a = b := by
  unfold cmpI; split_ifs <;> simp <;> omega

theorem filter_insertionSortB (r : α → α → Bool) (p : α → Bool) (l : List α)
    (h : ∀ a ∈ l, p a = true → ∀ b ∈ l, p b = true → r a b = true) :
    (insertionSortB r l).filter p = l.filter p := by
  induction l with
  | nil => simp [insertionSortB]
  | cons a t ih =>
    have haux : p a = true → ∀ b ∈ insertionSortB r t, p b = true → r a b = true := by
      intro hpa b hb hpb
      exact h a (List.mem_cons_self _ _) hpa b (List.mem_cons_of_mem _ (mem_insertionSortB hb)) hpb
    rw [insertionSortB, filter_orderedInsertB r p a _ haux,
      ih (fun x hx hpx y hy hpy =>
        h x (List.mem_cons_of_mem _ hx) hpx y (List.mem_cons_of_mem _ hy) hpy)]
    cases hpa : p a <;> simp [List.filter, hpa]

/-! ## Lemmas about the column comparator -/

theorem cmpI_gt_iff {a b : Int} : cmpI a b = .gt ↔ cmpI b a = .lt := by
  unfold cmpI; split_ifs <;> simp <;> omega

theorem sortLe_asc_iff {c : Col} {a b : Nurse} :
    sortLe c .asc a b = true ↔ colCmp c a b ≠ .gt := by
  unfold sortLe; cases h : colCmp c a b <;> simp

theorem sortLe_desc_iff {c : Col} {a b : Nurse} :
    sortLe c .desc a b = true ↔ colCmp c a b ≠ .lt := by
  unfold sortLe; cases h : colCmp c a b <;> simp

theorem colCmp_gt_iff_lt {c : Col} {a b : Nurse} :
    colCmp c a b = .gt ↔ colCmp c b a = .lt := by
  cases c with
  | name => exact cmpCodes_gt_iff
  | license_number => exact cmpCodes_gt_iff
  | age => exact cmpI_gt_iff
  | dob =>
    cases hx : parseDate a.dob with
    | none => cases hy : parseDate b.dob <;> simp [colCmp, hx, hy]
    | some x =>
      cases hy : parseDate b.dob with
      | none => simp [colCmp, hx, hy]
      | some y =>
        simp only [colCmp, hx, hy]
        exact cmpCodes_gt_iff

theorem colCmp_nlt_iff {c : Col} {a b : Nurse} :
    colCmp c a b ≠ .lt ↔ colCmp c b a ≠ .gt :=
  not_congr colCmp_gt_iff_lt.symm

theorem sortLe_total (c : Col) (d : Dir) (a b : Nurse) :
    sortLe c d a b = true ∨ sortLe c d b a = true := by
  cases d with
  | asc =>
    by_cases h : colCmp c a b = .gt
    · right
      rw [sortLe_asc_iff]
      rw [colCmp_gt_iff_lt] at h
      rw [h]
      simp
    · left; exact sortLe_asc_iff.mpr h
  | desc =>
    by_cases h : colCmp c a b = .lt
    · right
      rw [sortLe_desc_iff]
      intro hlt
      have := colCmp_gt_iff_lt.mpr hlt
      rw [h] at this
      cases this
    · left; exact sortLe_desc_iff.mpr h

theorem colCmp_ngt_trans {c : Col} {a b e : Nurse}
    (ha : (parseDate a.dob).isSome) (hb : (parseDate b.dob).isSome)
    (he : (parseDate e.dob).isSome)
    (h1 : colCmp c a b ≠ .gt) (h2 : colCmp c b e ≠ .gt) : colCmp c a e ≠ .gt := by
  cases c with
  | name => exact cmpCodes_ngt_trans h1 h2
  | license_number => exact cmpCodes_ngt_trans h1 h2
  | age =>
    simp only [colCmp] at h1 h2 ⊢
    rw [cmpI_ngt_iff] at h1 h2 ⊢
    omega
  | dob =>
    obtain ⟨x, hx⟩ := Option.isSome_iff_exists.mp ha
    obtain ⟨y, hy⟩ := Option.isSome_iff_exists.mp hb
    obtain ⟨z, hz⟩ := Option.isSome_iff_exists.mp he
    simp only [colCmp, hx, hy, hz] at h1 h2 ⊢
    exact cmpCodes_ngt_trans h1 h2

theorem sortLe_trans {c : Col} {d : Dir} {a b e : Nurse}
    (ha : (parseDate a.dob).isSome) (hb : (parseDate b.dob).isSome)
    (he : (parseDate e.dob).isSome)
    (h1 : sortLe c d a b = true) (h2 : sortLe c d b e = true) :
    sortLe c d a e = true := by
  cases d with
  | asc =>
    rw [sortLe_asc_iff] at h1 h2 ⊢
    exact colCmp_ngt_trans ha hb he h1 h2
  | desc =>
    rw [sortLe_desc_iff, colCmp_nlt_iff] at h1 h2 ⊢
    exact colCmp_ngt_trans he hb ha h2 h1

theorem colCmp_eq_trans {c : Col} {x y a : Nurse}
    (hx : (parseDate x.dob).isSome) (hy : (parseDate y.dob).isSome)
    (ha : (parseDate a.dob).isSome)
    (h1 : colCmp c x a = .eq) (h2 : colCmp c y a = .eq) : colCmp c x y = .eq := by
  cases c with
  | name =>
    simp only [colCmp] at h1 h2 ⊢
    rw [cmpCodes_eq_eq] at h1 h2 ⊢
    rw [h1, h2]
  | license_number =>
    simp only [colCmp] at h1 h2 ⊢
    rw [cmpCodes_eq_eq] at h1 h2 ⊢
    rw [h1, h2]
  | age =>
    simp only [colCmp] at h1 h2 ⊢
    rw [cmpI_eq_iff] at h1 h2 ⊢
    omega
  | dob =>
    obtain ⟨u, hu⟩ := Option.isSome_iff_exists.mp hx
    obtain ⟨v, hv⟩ := Option.isSome_iff_exists.mp hy
    obtain ⟨w, hw⟩ := Option.isSome_iff_exists.mp ha
    simp only [colCmp, hu, hv, hw] at h1 h2 ⊢
    rw [cmpCodes_eq_eq] at h1 h2 ⊢
    rw [h1, h2]

theorem sortLe_of_colCmp_eq {c : Col} {d : Dir} {a b : Nurse}
    (h : colCmp c a b = .eq) : sortLe c d a b = true := by
  cases d with
  | asc => rw [sortLe_asc_iff, h]; simp
  | desc => rw [sortLe_desc_iff, h]; simp

theorem specLe_of_colCmp_ngt {c : Col} {a b : Nurse}
    (h : colCmp c a b ≠ .gt) : specLe c a b := by
  cases c with
  | name => exact cmpCodes_ngt_iff_lexLeP.mp h
  | license_number => exact cmpCodes_ngt_iff_lexLeP.mp h
  | age =>
    simp only [colCmp] at h
    rw [cmpI_ngt_iff] at h
    exact h
  | dob =>
    intro x y hx hy
    simp only [colCmp, hx, hy] at h
    exact cmpCodes_ngt_iff_lexLeP.mp h

theorem dirLe_of_sortLe {c : Col} {d : Dir} {a b : Nurse}
    (h : sortLe c d a b = true) : dirLe c d a b := by
  cases d with
  | asc => exact specLe_of_colCmp_ngt (sortLe_asc_iff.mp h)
  | desc => exact specLe_of_colCmp_ngt (colCmp_nlt_iff.mp (sortLe_desc_iff.mp h))

/-! ## Decimal strings contain no upper-case characters -/

theorem toLower_digit (k : Nat) (hk : k < 10) :
    Char.toLower (Char.ofNat (48 + k)) = Char.ofNat (48 + k) := by
  interval_cases k <;> decide

theorem natCharsAux_toLower (fuel : Nat) :
    ∀ (n : Nat) (acc : List Char), (∀ c ∈ acc, Char.toLower c = c) →
      ∀ c ∈ natCharsAux fuel n acc, Char.toLower c = c := by
  induction fuel with
  | zero => intro n acc hacc c hc; exact hacc c hc
  | succ fuel ih =>
    intro n acc hacc c hc
    rw [natCharsAux] at hc
    by_cases h : n < 10
    · rw [if_pos h] at hc
      rcases List.mem_cons.mp hc with hc | hc
      · subst hc; exact toLower_digit n h
      · exact hacc c hc
    · rw [if_neg h] at hc
      refine ih (n / 10) _ ?_ c hc
      intro x hx
      rcases List.mem_cons.mp hx with hx | hx
      · subst hx; exact toLower_digit (n % 10) (Nat.mod_lt _ (by omega))
      · exact hacc x hx

theorem natChars_toLower (n : Nat) : ∀ c ∈ natChars n, Char.toLower c = c :=
  natCharsAux_toLower (n + 1) n [] (by simp)

theorem intChars_toLower (a : Int) : ∀ c ∈ intChars a, Char.toLower c = c := by
  cases a with
  | ofNat n => exact natChars_toLower n
  | negSucc n =>
    intro c hc
    rcases List.mem_cons.mp hc with hc | hc
    · subst hc; decide
    · exact natChars_toLower (n + 1) c hc

theorem lowerStr_intStr (a : Int) : lowerStr (intStr a) = intStr a := by
  unfold lowerStr intStr
  have : (intChars a).map Char.toLower = intChars a := by
    rw [List.map_congr_left (intChars_toLower a)]
    simp
  rw [this]

/-! ## Helper lemmas about validation and the age comparator -/

theorem truthy_eq_false_of_absentOrEmpty {v : JVal} (h : v.absentOrEmpty = true) :
    v.truthy = false := by
  cases v with
  | undef => rfl
  | str s =>
    simp only [JVal.absentOrEmpty, beq_iff_eq] at h
    subst h
    rfl
  | num n => simp [JVal.absentOrEmpty] at h

theorem validBody_eq_false_of_absent {b : ReqBody} (h : anyAbsentOrEmpty b = true) :
    validBody b = false := by
  unfold anyAbsentOrEmpty at h
  simp only [Bool.or_eq_true] at h
  unfold validBody
  rcases h with ((h | h) | h) | h <;>
    simp [truthy_eq_false_of_absentOrEmpty h]

theorem backendValidBody_eq_false_of_absent {b : ReqBody}
    (h : anyAbsentOrEmpty b = true) (hne : b.age ≠ JVal.str "") :
    backendValidBody b = false := by
  unfold anyAbsentOrEmpty at h
  simp only [Bool.or_eq_true] at h
  unfold backendValidBody
  rcases h with ((h | h) | h) | h
  · simp [truthy_eq_false_of_absentOrEmpty h]
  · simp [truthy_eq_false_of_absentOrEmpty h]
  · simp [truthy_eq_false_of_absentOrEmpty h]
  · have hundef : b.age = JVal.undef := by
      cases hv : b.age with
      | undef => rfl
      | str s =>
        rw [hv] at h
        simp only [JVal.absentOrEmpty, beq_iff_eq] at h
        subst h
        exact absurd hv hne
      | num n => rw [hv] at h; simp [JVal.absentOrEmpty] at h
    simp [hundef]

theorem sortLe_age_trans {d : Dir} {x y z : Nurse}
    (h1 : sortLe .age d x y = true) (h2 : sortLe .age d y z = true) :
    sortLe .age d x z = true := by
  cases d with
  | asc =>
    rw [sortLe_asc_iff] at h1 h2 ⊢
    simp only [colCmp] at h1 h2 ⊢
    rw [cmpI_ngt_iff] at h1 h2 ⊢
    omega
  | desc =>
    rw [sortLe_desc_iff] at h1 h2 ⊢
    simp only [colCmp] at h1 h2 ⊢
    rw [cmpI_nlt_iff] at h1 h2 ⊢
    omega

theorem age_le_of_sortLe_asc {x y : Nurse} (h : sortLe .age .asc x y = true) :
    x.age ≤ y.age := by
  rw [sortLe_asc_iff] at h
  simp only [colCmp] at h
  rwa [cmpI_ngt_iff] at h

theorem age_ge_of_sortLe_desc {x y : Nurse} (h : sortLe .age .desc x y = true) :
    y.age ≤ x.age := by
  rw [sortLe_desc_iff] at h
  simp only [colCmp] at h
  rwa [cmpI_nlt_iff] at h

/-! ## Claim C1 — duplicate license on POST -/

/-- C1, counterexample to the claim as stated: a create request whose
license number equals an existing record's but which also has an empty
`name` field gets the VALIDATION message, not the duplicate-license
message (the presence validation runs before the INSERT).  Status is 400
and the store is unchanged either way, but the claimed message is wrong. -/
theorem c1_counterexample :
    storeRN1.rows.any (fun r => r.license_number == "RN-1") = true
    ∧ (postNurse storeRN1 ⟨.str "", .str "RN-1", .str "1990-01-01", .num 30⟩)
        = (storeRN1, .failure 400 validationMsg)
    ∧ validationMsg ≠ duplicateMsg := by
  refine ⟨by decide, by decide, by decide⟩

/-- C1 (amended): for every store state and every create request that
passes the field-presence validation and whose age parses to an integer,
if the request's license number equals the license number of an existing
record then POST fails with status 400 and the duplicate-license message,
and the store (in particular its record count) is unchanged. -/
theorem c1_duplicate_license (s : Store) (b : ReqBody) (a : Int)
    (hv : validBody b = true) (hp : jsParseInt b.age = some a)
    (hdup : ∃ r ∈ s.rows, r.license_number = b.license_number.asString) :
    postNurse s b = (s, .failure 400 duplicateMsg) := by
  have hany : (s.rows.any fun r => r.license_number == b.license_number.asString) = true := by
    rw [List.any_eq_true]
    obtain ⟨r, hr, he⟩ := hdup
    exact ⟨r, hr, by simp [he]⟩
  simp [postNurse, hv, hp, hany]

/-- C1 witness: the amended theorem at a concrete duplicate request. -/
theorem c1_witness :
    postNurse storeRN1 ⟨.str "Bea", .str "RN-1", .str "1991-02-02", .num 33⟩
      = (storeRN1, .failure 400 duplicateMsg) :=
  c1_duplicate_license storeRN1 ⟨.str "Bea", .str "RN-1", .str "1991-02-02", .num 33⟩ 33
    (by decide) (by decide) ⟨nurseAnn, by decide, by decide⟩

/-! ## Claim C2 — PUT on a missing id -/

/-- C2, counterexample to the claim as stated: in `src/backend/server.js`
the presence validation runs before the existence check, so a PUT on an id
absent from the store whose body is invalid returns 400, not 404. -/
theorem c2_counterexample :
    (backendPutNurse emptyStore 1 ⟨.undef, .undef, .undef, .undef⟩).2
      = .failure 400 backendValidationMsg
    ∧ (backendPutNurse emptyStore 1 ⟨.undef, .undef, .undef, .undef⟩).2.status ≠ 404 := by
  refine ⟨by decide, by decide⟩

/-- C2 (amended): for every store state and every id not present in the
store, the `src/server.js` PUT fails with 404 and the NotFound message for
ANY request body; the `src/backend/server.js` PUT does so for every body
that passes its presence validation (an invalid body yields 400 there);
in all cases the store is left unchanged. -/
theorem c2_put_missing_id (s : Store) (id : Nat) (b : ReqBody)
    (habs : ∀ r ∈ s.rows, r.id ≠ id) :
    putNurse s id b = (s, .failure 404 notFoundMsg)
    ∧ (backendValidBody b = true →
        backendPutNurse s id b = (s, .failure 404 notFoundMsg))
    ∧ (backendPutNurse s id b).1 = s := by
  have hfind : findById s.rows id = none := by
    unfold findById
    rw [List.find?_eq_none]
    intro r hr
    simpa using habs r hr
  refine ⟨by simp [putNurse, hfind], ?_, ?_⟩
  · intro hv
    simp [backendPutNurse, hv, hfind]
  · cases hv : backendValidBody b with
    | true => simp [backendPutNurse, hv, hfind]
    | false => simp [backendPutNurse, hv]

/-- C2 witness: the amended theorem at a concrete missing id, with the
inner validity hypothesis discharged on a concrete valid body. -/
theorem c2_witness :
    putNurse emptyStore 5 ⟨.str "A", .str "L", .str "D", .num 30⟩
      = (emptyStore, .failure 404 notFoundMsg)
    ∧ backendPutNurse emptyStore 5 ⟨.str "A", .str "L", .str "D", .num 30⟩
      = (emptyStore, .failure 404 notFoundMsg) := by
  have h := c2_put_missing_id emptyStore 5 ⟨.str "A", .str "L", .str "D", .num 30⟩
    (by simp [emptyStore])
  exact ⟨h.1, h.2.1 (by decide)⟩

/-! ## Claim C3 — field-presence validation -/

/-- C3, counterexample to the claim as stated: the request below has all
four editable fields present and non-empty, and its age (the integer 0)
is coercible to an integer, yet it does NOT pass validation —
`!age` is true for the number 0 in JavaScript — and POST answers 400. -/
theorem c3_counterexample :
    validBody ⟨.str "Ann", .str "RN-9", .str "1990-01-01", .num 0⟩ = false
    ∧ jsParseInt (JVal.num 0) = some 0
    ∧ (postNurse emptyStore ⟨.str "Ann", .str "RN-9", .str "1990-01-01", .num 0⟩).2
        = .failure 400 validationMsg := by
  refine ⟨by decide, by decide, by decide⟩

/-- C3 (amended): (i) in `src/server.js`, a create or update request in
which some editable field is absent or empty gets status 400 with the
validation message and leaves the store unchanged — for update, provided
the id exists (a missing id yields 404 instead, see C10); (ii) the
`src/backend/server.js` create path answers 400 with its validation
message likewise, EXCEPT that an empty-string age passes its
`age === undefined` presence check; (iii) in that exceptional case —
empty-string age, other fields present — `parseInt('')` is NaN, the NOT
NULL bind fails, and the backend create answers 500, not 400, the store
still unchanged; (iv) conversely a request whose four fields are present
with non-empty strings and a NONZERO integer age passes both servers'
validation. -/
theorem c3_validation (s : Store) (id : Nat) (b : ReqBody)
    (nm lic dstr : String) (n : Int) :
    (anyAbsentOrEmpty b = true →
        postNurse s b = (s, .failure 400 validationMsg)
        ∧ ((∃ r ∈ s.rows, r.id = id) →
            putNurse s id b = (s, .failure 400 validationMsg)))
    ∧ (anyAbsentOrEmpty b = true → b.age ≠ JVal.str "" →
        backendPostNurse s b = (s, .failure 400 backendValidationMsg))
    ∧ (b.name.truthy = true → b.license_number.truthy = true → b.dob.truthy = true →
        b.age = JVal.str "" →
        backendPostNurse s b = (s, .failure 500 createFailMsg))
    ∧ (nm ≠ "" → lic ≠ "" → dstr ≠ "" → n ≠ 0 →
        validBody ⟨.str nm, .str lic, .str dstr, .num n⟩ = true
        ∧ backendValidBody ⟨.str nm, .str lic, .str dstr, .num n⟩ = true) := by
  refine ⟨?_, ?_, ?_, ?_⟩
  · intro habs
    have hval : validBody b = false := validBody_eq_false_of_absent habs
    constructor
    · simp [postNurse, hval]
    · intro hex
      obtain ⟨r, hr, hid⟩ := hex
      have hsome : (findById s.rows id).isSome := by
        unfold findById
        rw [List.find?_isSome]
        exact ⟨r, hr, by simp [hid]⟩
      obtain ⟨r0, hr0⟩ := Option.isSome_iff_exists.mp hsome
      simp [putNurse, hr0, hval]
  · intro habs hne
    have hval : backendValidBody b = false := backendValidBody_eq_false_of_absent habs hne
    simp [backendPostNurse, hval]
  · intro h1 h2 h3 hage
    have hv : backendValidBody b = true := by
      simp [backendValidBody, h1, h2, h3, hage]
    have hp : jsParseInt b.age = none := by rw [hage]; rfl
    simp [backendPostNurse, hv, hp]
  · intro h1 h2 h3 h4
    constructor
    · simp [validBody, JVal.truthy, h1, h2, h3, h4]
    · simp [backendValidBody, JVal.truthy, h1, h2, h3]

/-- C3 witness: all four parts of the amended theorem at concrete
inputs (an empty-name body for the 400 cases, an empty-string-age body
for the backend 500 case, and a fully valid body for the converse). -/
theorem c3_witness :
    postNurse storeRN1 ⟨.str "", .str "RN-9", .str "1990-01-01", .num 22⟩
      = (storeRN1, .failure 400 validationMsg)
    ∧ putNurse storeRN1 1 ⟨.str "", .str "RN-9", .str "1990-01-01", .num 22⟩
      = (storeRN1, .failure 400 validationMsg)
    ∧ backendPostNurse storeRN1 ⟨.str "", .str "RN-9", .str "1990-01-01", .num 22⟩
      = (storeRN1, .failure 400 backendValidationMsg)
    ∧ backendPostNurse storeRN1 ⟨.str "Ann", .str "RN-9", .str "1990-01-01", .str ""⟩
      = (storeRN1, .failure 500 createFailMsg)
    ∧ validBody ⟨.str "Ann", .str "RN-9", .str "1990-01-01", .num 22⟩ = true
    ∧ backendValidBody ⟨.str "Ann", .str "RN-9", .str "1990-01-01", .num 22⟩ = true := by
  have h := c3_validation storeRN1 1 ⟨.str "", .str "RN-9", .str "1990-01-01", .num 22⟩
    "Ann" "RN-9" "1990-01-01" 22
  have h' := c3_validation storeRN1 1 ⟨.str "Ann", .str "RN-9", .str "1990-01-01", .str ""⟩
    "Ann" "RN-9" "1990-01-01" 22
  have h1 := h.1 (by decide)
  have hc := h.2.2.2 (by decide) (by decide) (by decide) (by decide)
  exact ⟨h1.1, h1.2 ⟨nurseAnn, by decide, by decide⟩,
    h.2.1 (by decide) (by decide),
    h'.2.2.1 (by decide) (by decide) (by decide) (by decide),
    hc.1, hc.2⟩

/-! ## Claim C7 — DELETE then GET -/

/-- C7 (confirmed): for every store state containing a record with the
given id, DELETE succeeds and a subsequent GET of the same id fails with
404 and the NotFound message. -/
theorem c7_delete_then_get (s : Store) (id : Nat)
    (h : ∃ r ∈ s.rows, r.id = id) :
    (deleteNurse s id).2 = .success 200 none
    ∧ getNurse (deleteNurse s id).1 id = .failure 404 notFoundMsg := by
  obtain ⟨r, hr, hid⟩ := h
  have hf : (findById s.rows id).isSome := by
    unfold findById
    rw [List.find?_isSome]
    exact ⟨r, hr, by simp [hid]⟩
  obtain ⟨r0, hr0⟩ := Option.isSome_iff_exists.mp hf
  have hnone : findById (s.rows.filter (fun x => !(x.id == id))) id = none := by
    unfold findById
    rw [List.find?_eq_none]
    intro x hx
    have h2 := (List.mem_filter.mp hx).2
    simp at h2 ⊢
    exact h2
  constructor
  · simp [deleteNurse, hr0]
  · simp [deleteNurse, hr0, getNurse, hnone]

/-- C7 witness: delete-then-get at a concrete store and id. -/
theorem c7_witness :
    (deleteNurse storeTwo 2).2 = .success 200 none
    ∧ getNurse (deleteNurse storeTwo 2).1 2 = .failure 404 notFoundMsg :=
  c7_delete_then_get storeTwo 2 ⟨nurseBea, by decide, by decide⟩

/-! ## Claim C8 — list is newest-id-first -/

/-- C8 (confirmed): under the AUTOINCREMENT store invariant, GET
/api/nurses returns a permutation of all records of the store, in
strictly descending order of id. -/
theorem c8_list_newest_first (s : Store) (hwf : s.wf) :
    (listNurses s).Perm s.rows
    ∧ (listNurses s).Pairwise (fun a b => b.id < a.id) := by
  refine ⟨insertionSortB_perm _ _, ?_⟩
  have hle := pairwise_insertionSortB (fun a b : Nurse => decide (b.id ≤ a.id)) s.rows
    (fun a _ b _ => by
      simp only [decide_eq_true_eq]
      omega)
    (fun a _ b _ e _ h1 h2 => by
      simp only [decide_eq_true_eq] at h1 h2 ⊢
      omega)
  have hne : s.rows.Pairwise (fun a b => a.id ≠ b.id) :=
    hwf.1.imp (fun h => by omega)
  have hperm : (listNurses s).Perm s.rows := insertionSortB_perm _ _
  have hne2 : (listNurses s).Pairwise (fun a b => a.id ≠ b.id) :=
    (hperm.pairwise_iff (fun h => Ne.symm h)).mpr hne
  exact (hne2.and hle).imp (fun h => by
    have h1 := h.1
    have h2 := h.2
    simp only [decide_eq_true_eq] at h2
    omega)

/-- C8 witness: the list of a concrete two-row store. -/
theorem c8_witness :
    (listNurses storeTwo).Perm storeTwo.rows
    ∧ (listNurses storeTwo).Pairwise (fun a b => b.id < a.id) :=
  c8_list_newest_first storeTwo (by constructor <;> decide)

/-! ## Claim C10 — NotFound precedence over validation in src/server.js -/

/-- C10 (confirmed): the `src/server.js` PUT handler checks existence
before validating the body, so every PUT on an id absent from the store
answers 404 NotFound — for EVERY body, including invalid ones — and the
store is unchanged. -/
theorem c10_put_notfound_precedence (s : Store) (id : Nat) (b : ReqBody)
    (habs : ∀ r ∈ s.rows, r.id ≠ id) :
    putNurse s id b = (s, .failure 404 notFoundMsg) := by
  have hfind : findById s.rows id = none := by
    unfold findById
    rw [List.find?_eq_none]
    intro r hr
    simpa using habs r hr
  simp [putNurse, hfind]

/-- C10 witness: a PUT on a missing id whose body is also invalid (absent
and empty fields, zero age) still gets 404, not 400. -/
theorem c10_witness :
    putNurse emptyStore 3 ⟨.undef, .str "", .undef, .num 0⟩
      = (emptyStore, .failure 404 notFoundMsg) :=
  c10_put_notfound_precedence emptyStore 3 ⟨.undef, .str "", .undef, .num 0⟩
    (by simp [emptyStore])

/-! ## Claim C9 — dob → age auto-calculation -/

/-- C9 (confirmed): the auto-derived candidate age equals the
calendar-year difference between the current year and the dob's year,
decremented by one exactly when the dob's month/day has not yet occurred
in the current year. -/
theorem c9_auto_age (t b : SimpleDate) :
    deriveAge t b
      = (t.y - b.y) - (if t.m < b.m ∨ (t.m = b.m ∧ t.d < b.d) then 1 else 0) := by
  simp only [deriveAge]
  split_ifs <;> omega

/-! ## Claim C5 — the search filter -/

/-- C5, counterexample to the claim as stated: the code lower-cases the
query but matches it against the RAW dob string, so for a dob containing
upper-case letters the match is not case-insensitive: the query "JAN" is
a case-insensitive substring of the dob "1990-JAN-01" (the claim
predicate accepts the record) but `filteredNurses` drops it. -/
theorem c5_counterexample :
    filteredNurses [nurseAda] "JAN" = []
    ∧ claimMatch "JAN" nurseAda = true
    ∧ [nurseAda].filter (fun n => claimMatch "JAN" n) = [nurseAda] := by
  refine ⟨by decide, by decide, by decide⟩

/-- C5 (amended): `filteredNurses` returns exactly those records for
which the query is a case-insensitive substring of the name, the license
number, or the string form of the age, or the LOWER-CASED query is a
(case-sensitive) substring of the raw dob string; for an empty query it
returns every record of the collection unchanged in relative order. -/
theorem c5_filter (l : List Nurse) (q : String) :
    filteredNurses l q = l.filter (fun n => amendedMatch q n)
    ∧ filteredNurses l "" = l := by
  constructor
  · unfold filteredNurses
    apply List.filter_congr
    intro n _
    unfold matchesSearch amendedMatch ciSubstr
    cases hq : q == "" with
    | true => simp [hq]
    | false => simp [hq, lowerStr_intStr]
  · unfold filteredNurses
    have h : ∀ n ∈ l, matchesSearch "" n = (fun _ => true) n := fun n _ => rfl
    rw [List.filter_congr h, List.filter_true]

/-! ## Claim C4 — the comparator sort -/

/-- C4 (confirmed, for collections whose dob strings are well-formed ISO
dates — for malformed dobs the `new Date` comparator is inconsistent and
"compares as calendar dates" is meaningless): `sortNurses` returns a
permutation of the collection, ordered by the spec-side column order
(age as integers, dob as calendar dates, otherwise case-insensitive
string value, descending when requested), and ties (comparator-equal
records) keep their input order. -/
theorem c4_sort_correct (c : Col) (d : Dir) (l : List Nurse)
    (hdob : ∀ n ∈ l, (parseDate n.dob).isSome) :
    (sortNurses c d l).Perm l
    ∧ (sortNurses c d l).Pairwise (dirLe c d)
    ∧ ∀ a ∈ l, (sortNurses c d l).filter (fun x => decide (colCmp c x a = Ordering.eq))
        = l.filter (fun x => decide (colCmp c x a = Ordering.eq)) := by
  refine ⟨insertionSortB_perm _ _, ?_, ?_⟩
  · have hp := pairwise_insertionSortB (sortLe c d) l
      (fun a _ b _ => sortLe_total c d a b)
      (fun a ha b hb e he h1 h2 => sortLe_trans (hdob a ha) (hdob b hb) (hdob e he) h1 h2)
    exact hp.imp (fun h => dirLe_of_sortLe h)
  · intro a ha
    apply filter_insertionSortB
    intro x hx hpx y hy hpy
    rw [decide_eq_true_eq] at hpx hpy
    exact sortLe_of_colCmp_eq (colCmp_eq_trans (hdob x hx) (hdob y hy) (hdob a ha) hpx hpy)

/-- C4 witness: the sort specification at a concrete two-record
collection, name column ascending, with the tie-class equation
instantiated at the first record. -/
theorem c4_witness :
    (sortNurses .name .asc [nurseBea, nurseAnn]).Perm [nurseBea, nurseAnn]
    ∧ (sortNurses .name .asc [nurseBea, nurseAnn]).Pairwise (dirLe .name .asc)
    ∧ (sortNurses .name .asc [nurseBea, nurseAnn]).filter
          (fun x => decide (colCmp .name x nurseBea = Ordering.eq))
        = [nurseBea, nurseAnn].filter
          (fun x => decide (colCmp .name x nurseBea = Ordering.eq)) := by
  obtain ⟨h1, h2, h3⟩ := c4_sort_correct .name .asc [nurseBea, nurseAnn] (by decide)
  exact ⟨h1, h2, h3 nurseBea (by decide)⟩

/-! ## Claim C6 — age ascending then descending reverses -/

/-- C6 (confirmed): when the ages of the collection are pairwise
distinct, sorting by the age column ascending and then sorting the result
descending yields the exact reverse of the ascending order. -/
theorem c6_asc_desc_reverse (l : List Nurse)
    (h : l.Pairwise (fun a b => a.age ≠ b.age)) :
    sortNurses .age .desc (sortNurses .age .asc l)
      = (sortNurses .age .asc l).reverse := by
  have p₁ : (sortNurses .age .asc l).Perm l := insertionSortB_perm _ _
  have s₁ : (sortNurses .age .asc l).Pairwise (fun x y => sortLe .age .asc x y = true) :=
    pairwise_insertionSortB _ _
      (fun a _ b _ => sortLe_total _ _ a b)
      (fun a _ b _ e _ h1 h2 => sortLe_age_trans h1 h2)
  have d₁ : (sortNurses .age .asc l).Pairwise (fun a b => a.age ≠ b.age) :=
    (p₁.pairwise_iff (fun hxy => Ne.symm hxy)).mpr h
  have strict₁ : (sortNurses .age .asc l).Pairwise (fun a b => a.age < b.age) :=
    (d₁.and s₁).imp (fun hab => by
      have h2 := age_le_of_sortLe_asc hab.2
      have h1 := hab.1
      omega)
  have rev : (sortNurses .age .asc l).reverse.Pairwise (fun a b => b.age < a.age) :=
    List.pairwise_reverse.mpr strict₁
  have p₂ : (sortNurses .age .desc (sortNurses .age .asc l)).Perm (sortNurses .age .asc l) :=
    insertionSortB_perm _ _
  have s₂ : (sortNurses .age .desc (sortNurses .age .asc l)).Pairwise
      (fun x y => sortLe .age .desc x y = true) :=
    pairwise_insertionSortB _ _
      (fun a _ b _ => sortLe_total _ _ a b)
      (fun a _ b _ e _ h1 h2 => sortLe_age_trans h1 h2)
  have d₂ : (sortNurses .age .desc (sortNurses .age .asc l)).Pairwise
      (fun a b => a.age ≠ b.age) :=
    (p₂.pairwise_iff (fun hxy => Ne.symm hxy)).mpr d₁
  have strict₂ : (sortNurses .age .desc (sortNurses .age .asc l)).Pairwise
      (fun a b => b.age < a.age) :=
    (d₂.and s₂).imp (fun hab => by
      have h2 := age_ge_of_sortLe_desc hab.2
      have h1 := hab.1
      omega)
  have pfin : (sortNurses .age .desc (sortNurses .age .asc l)).Perm
      (sortNurses .age .asc l).reverse :=
    p₂.trans (List.reverse_perm (sortNurses .age .asc l)).symm
  haveI : IsAntisymm Nurse (fun a b => b.age < a.age) :=
    ⟨fun a b h1 h2 => absurd h1 (by omega)⟩
  exact List.eq_of_perm_of_sorted pfin strict₂ rev

/-- C6 witness: ascending-then-descending age sort of a concrete
three-record collection with pairwise distinct ages. -/
theorem c6_witness :
    sortNurses .age .desc (sortNurses .age .asc [nurseAnn, nurseBea, nurseCal])
      = (sortNurses .age .asc [nurseAnn, nurseBea, nurseCal]).reverse :=
  c6_asc_desc_reverse [nurseAnn, nurseBea, nurseCal] (by decide)

end NurseMgmt
